import Mathlib

/-!
Verification development for the skydive property-graph traversal engine,
TID mapper and on-demand capture orchestrator.

The definitions below are a shallow embedding of the Go sources
`topology/graph/traversal/traversal.go`, `topology/topology.go`,
`topology/tid_mapper.go` and `flow/ondemand/client/client.go`.
Go `error` values are modelled as `Option String`, Go `interface` values
appearing in metadata as `MValue`, and the external collaborators that are
not part of the provided sources (the `graph` package, the `common`
iterator, the UUID and regexp libraries, the gremlin query front end and
the message bus) are modelled from the specification, as noted on each
definition.
-/

namespace Skydive

/-- Metadata values: strings, integers and booleans, covering the scalar
metadata used by the traversal and the TID mapper. -/
inductive MValue where
  | str : String → MValue
  | int : Int → MValue
  | bool : Bool → MValue
deriving DecidableEq

/-- Modelled from the spec: a graph node with an opaque identifier, its
owning host label and a metadata mapping (the `graph.Node` type of the
external graph package). -/
structure Node where
  id : String
  host : String
  metadata : List (String × MValue)
deriving DecidableEq

/-- Modelled from the spec: a graph edge with identifier, parent node
identifier, child node identifier and metadata (the `graph.Edge` type of
the external graph package). -/
structure Edge where
  id : String
  parent : String
  child : String
  metadata : List (String × MValue)
deriving DecidableEq

/-- Modelled from the spec: the in-memory property graph, a set of nodes
and a set of edges kept in insertion order. -/
structure Graph where
  nodes : List Node
  edges : List Edge
deriving DecidableEq

/-- A metadata filter restricted to term (equality) predicates, which is
the only predicate shape the verified claims exercise; the matcher
constructors of the source are modelled separately (`Regex`). -/
abbrev Metadata := List (String × MValue)

/-- First binding of a key in a metadata mapping. -/
def lookupMeta (md : List (String × MValue)) (k : String) : Option MValue :=
  (md.find? (fun kv => kv.1 == k)).map (fun kv => kv.2)

/-- Modelled from the spec: metadata match semantics of the graph package;
an entity matches when every key of the filter is present with the required
value, and a missing key never matches. -/
def matchMetadata (md : List (String × MValue)) (m : Metadata) : Bool :=
  m.all (fun kv => lookupMeta md kv.1 == some kv.2)

/-- `Node.GetFieldString`: the string value of a metadata field, `none`
standing for the Go error result (missing field or non-string value). -/
def Node.getFieldString (n : Node) (k : String) : Option String :=
  match lookupMeta n.metadata k with
  | some (.str s) => some s
  | _ => none

/-- Modelled from the spec: `Graph.GetNode`, lookup of a node by identifier. -/
def Graph.getNode (g : Graph) (id : String) : Option Node :=
  g.nodes.find? (fun n => n.id == id)

/-- Modelled from the spec: `Graph.GetNodes`, all nodes whose metadata
matches the filter, in insertion order. -/
def Graph.getNodes (g : Graph) (m : Metadata) : List Node :=
  g.nodes.filter (fun n => matchMetadata n.metadata m)

/-- Modelled from the spec: `Graph.GetNodeEdges`, the edges incident to a
node that match the metadata filter, in insertion order. -/
def Graph.getNodeEdges (g : Graph) (n : Node) (m : Metadata) : List Edge :=
  g.edges.filter (fun e => (e.parent == n.id || e.child == n.id) && matchMetadata e.metadata m)

/-- Modelled from the spec: `Graph.GetEdgeNodes`, the endpoint nodes of an
edge, parents matching the first filter and children the second. -/
def Graph.getEdgeNodes (g : Graph) (e : Edge) (pm cm : Metadata) :
    List Node × List Node :=
  (g.nodes.filter (fun x => x.id == e.parent && matchMetadata x.metadata pm),
   g.nodes.filter (fun x => x.id == e.child && matchMetadata x.metadata cm))

/-- Modelled from the spec: `Graph.LookupChildren`, the child nodes reached
through edges whose parent is the given node, with the edge matching the
edge filter and the child matching the node filter. -/
def Graph.lookupChildren (g : Graph) (n : Node) (nm em : Metadata) : List Node :=
  (g.edges.filter (fun e => e.parent == n.id && matchMetadata e.metadata em)).filterMap
    (fun e =>
      match g.getNode e.child with
      | some c => if matchMetadata c.metadata nm then some c else none
      | none => none)

/-- Modelled from the spec: `Graph.LookupParents`, the parent nodes reached
through edges whose child is the given node. -/
def Graph.lookupParents (g : Graph) (n : Node) (nm em : Metadata) : List Node :=
  (g.edges.filter (fun e => e.child == n.id && matchMetadata e.metadata em)).filterMap
    (fun e =>
      match g.getNode e.parent with
      | some p => if matchMetadata p.metadata nm then some p else none
      | none => none)

/-- Undirected neighbours of a node through edges matching the edge filter,
in edge insertion order; auxiliary to the breadth-first search. -/
def Graph.neighbors (g : Graph) (em : Metadata) (id : String) : List String :=
  (g.edges.filter (fun e => matchMetadata e.metadata em)).flatMap
    (fun e =>
      if e.parent == id then [e.child]
      else if e.child == id then [e.parent]
      else [])

/-- Modelled from the spec: the breadth-first search queue loop of
`Graph.LookupShortestPath`; paths are kept reversed (current node first),
the search stops at the first dequeued node matching the target metadata,
and ties are broken by edge insertion order.  The fuel argument bounds the
number of dequeues. -/
def bfsLoop (g : Graph) (tm em : Metadata) :
    Nat → List (List String) → List String → Option (List String)
  | 0, _, _ => none
  | _ + 1, [], _ => none
  | fuel + 1, p :: queue, visited =>
    match p with
    | [] => bfsLoop g tm em fuel queue visited
    | u :: _ =>
      match g.getNode u with
      | none => bfsLoop g tm em fuel queue visited
      | some nu =>
        if matchMetadata nu.metadata tm then some p.reverse
        else
          let ns := (g.neighbors em u).filter (fun v => !(visited.contains v))
          bfsLoop g tm em fuel (queue ++ ns.map (fun v => v :: p)) (visited ++ ns)

/-- Modelled from the spec: `Graph.LookupShortestPath`, breadth-first over
the undirected projection of the edges matching the edge filter, from the
source node to the first node matching the target metadata; the returned
path is source-to-target inclusive and empty when no path exists. -/
def Graph.lookupShortestPath (g : Graph) (n : Node) (tm em : Metadata) : List Node :=
  let fuel := (g.nodes.length + g.edges.length + 1) * (g.nodes.length + 1)
  match bfsLoop g tm em fuel [[n.id]] [n.id] with
  | some ids => ids.filterMap (fun id => g.getNode id)
  | none => []

/-! ## Traversal engine (`topology/graph/traversal/traversal.go`) -/

/-- Modelled from the spec: the `common.Iterator` pagination counter, which
counts produced elements and admits those whose running index lies in
`[lo, hi)`; `hi = none` stands for the unbounded iterator used when no
pagination range is set. -/
structure Iterator where
  count : Int
  lo : Int
  hi : Option Int
deriving DecidableEq

/-- `Iterator.Done`: the iterator is exhausted once the counter reaches the
upper bound. -/
def Iterator.done (it : Iterator) : Bool :=
  match it.hi with
  | some h => it.count ≥ h
  | none => false

/-- `Iterator.Next`: advance the counter and report whether the element at
the new count is past the lower bound, hence admitted. -/
def Iterator.next (it : Iterator) : Iterator × Bool :=
  (⟨it.count + 1, it.lo, it.hi⟩, it.count + 1 > it.lo)

/-- `GraphStepContext`: the per-query pagination range. -/
structure GraphStepContext where
  paginationRange : Option (Int × Int)
deriving DecidableEq

/-- `GraphTraversalRange.Iterator`: the counting iterator for the current
step context; a `nil` range yields the unbounded iterator. -/
def GraphStepContext.iterator (ctx : GraphStepContext) : Iterator :=
  match ctx.paginationRange with
  | some r => ⟨0, r.1, some r.2⟩
  | none => ⟨0, 0, none⟩

/-- `GraphTraversal`: the root step, carrying the graph (none when the
step was produced in error, mirroring the nil Go pointer), a sticky error
and the step context. -/
structure GraphTraversal where
  graph : Option Graph
  error : Option String
  currentStepContext : GraphStepContext
deriving DecidableEq

/-- The zero `GraphTraversal` standing for the nil `GraphTraversal` pointer
left in steps constructed only with an error. -/
def emptyGT : GraphTraversal := ⟨none, none, ⟨none⟩⟩

/-- The graph a non-errored step operates on (engine-made non-errored steps
always carry one). -/
def GraphTraversal.getGraph (t : GraphTraversal) : Graph :=
  t.graph.getD ⟨[], []⟩

/-- `GraphTraversalV`: a node step. -/
structure GraphTraversalV where
  gt : GraphTraversal
  nodes : List Node
  error : Option String
deriving DecidableEq

/-- `GraphTraversalE`: an edge step. -/
structure GraphTraversalE where
  gt : GraphTraversal
  edges : List Edge
  error : Option String
deriving DecidableEq

/-- `GraphTraversalShortestPath`: a path step. -/
structure GraphTraversalShortestPath where
  gt : GraphTraversal
  paths : List (List Node)
  error : Option String
deriving DecidableEq

/-- A Go `interface` value held by a `GraphTraversalValue`: nil, a scalar,
or a slice of scalars. -/
inductive GoValue where
  | nil : GoValue
  | val : MValue → GoValue
  | arr : List MValue → GoValue
deriving DecidableEq

/-- `GraphTraversalValue`: a value step; steps constructed only with an
error leave `value` at its zero value nil. -/
structure GraphTraversalValue where
  gt : GraphTraversal
  value : GoValue
  error : Option String
deriving DecidableEq

/-- `GraphTraversalValue.Values`: a slice value is returned as is, any
other value (nil included) is wrapped in a one-element sequence. -/
def GraphTraversalValue.values (t : GraphTraversalValue) : List GoValue :=
  match t.value with
  | .arr l => l.map .val
  | v => [v]

/-- `GraphTraversalV.Values`. -/
def GraphTraversalV.values (tv : GraphTraversalV) : List Node :=
  tv.nodes

/-- `GraphTraversalE.Values`. -/
def GraphTraversalE.values (te : GraphTraversalE) : List Edge :=
  te.edges

/-- `GraphTraversalShortestPath.Values`. -/
def GraphTraversalShortestPath.values (sp : GraphTraversalShortestPath) : List (List Node) :=
  sp.paths

/-- A variadic step parameter; the verified claims only exercise string and
integer parameters, which `ParamToFilter` turns into term filters. -/
inductive GoParam where
  | str : String → GoParam
  | int : Int → GoParam
deriving DecidableEq

/-- The key/value pairs of `SliceToMetadata` once the length is even: keys
must be strings, values become term filters. -/
def pairsToMetadata : List GoParam → Except String Metadata
  | [] => .ok []
  | .str k :: v :: rest => do
    let m ← pairsToMetadata rest
    match v with
    | .str s => .ok ((k, .str s) :: m)
    | .int n => .ok ((k, .int n) :: m)
  | _ => .error "keys should be of string type"

/-- `SliceToMetadata`: an odd-length slice is rejected first, then each
pair is converted. -/
def sliceToMetadata (s : List GoParam) : Except String Metadata :=
  if s.length % 2 != 0 then .error "slice must be defined by pair k,v"
  else pairsToMetadata s

/-- `ParamsToFilter`: same pair conversion with the error texts of the
filter-building path of the source. -/
def paramsToFilter (s : List GoParam) : Except String Metadata :=
  if s.length % 2 != 0 then .error "Slice must be defined by pair k,v"
  else match pairsToMetadata s with
    | .ok m => .ok m
    | .error _ => .error "Keys should be of string type"

/-- The pagination filter loop shared by `V` and keyed `Has`: break when
the iterator is done, test the element, and only a passing element draws
`Next()` and is admitted when `Next()` returns true. -/
def pagedFilter (p : α → Bool) : Iterator → List α → List α
  | _, [] => []
  | it, x :: rest =>
    if it.done then []
    else if p x then
      let n := it.next
      if n.2 then x :: pagedFilter p n.1 rest
      else pagedFilter p n.1 rest
    else pagedFilter p it rest

/-- One produced batch of an expanding step: break out of the whole step
when the iterator is done; when `withNext` is set the element draws
`Next()` and is admitted only on true (the `Out`, `InE`, `Both`, `InV`,
`OutV` pattern), otherwise the element is admitted without the counter
advancing (the `In` and `OutE` pattern, whose loops never call `Next()`). -/
def pagedBatch (withNext : Bool) : Iterator → List α → Iterator × List α × Bool
  | it, [] => (it, [], false)
  | it, x :: xs =>
    if it.done then (it, [], true)
    else if withNext then
      let n := it.next
      let r := pagedBatch withNext n.1 xs
      (r.1, if n.2 then x :: r.2.1 else r.2.1, r.2.2)
    else
      let r := pagedBatch withNext it xs
      (r.1, x :: r.2.1, r.2.2)

/-- The outer loop of an expanding step: produce a batch per input
element, feed it through `pagedBatch`, and stop the whole loop when a
batch broke on an exhausted iterator. -/
def pagedCollect (withNext : Bool) (produce : β → List α) :
    Iterator → List β → List α
  | _, [] => []
  | it, n :: rest =>
    let r := pagedBatch withNext it (produce n)
    if r.2.2 then r.2.1
    else r.2.1 ++ pagedCollect withNext produce r.1 rest

/-- The error text of `GraphTraversal.Context` for a time strictly after
the current time. -/
def futureMsg : String := "Sorry, I can\x27t predict the future"

/-- Modelled from the spec: `graph.Graph.WithContext` consults a historical
backend, which is out of scope; with no backend configured time queries are
rejected (permitted by the spec). -/
def Graph.withContext (_ : Graph) (_ _ : Int) : Except String Graph :=
  .error "no history backend configured"

/-- `GraphTraversal.Context`: switch to a time-sliced view; a time strictly
after `now` yields a traversal that carries the future error and no graph.
Times are Unix seconds, `now` standing for `time.Now()`. -/
def GraphTraversal.contextStep (t : GraphTraversal) (now att duration : Int) :
    GraphTraversal :=
  if t.error.isSome then t
  else if att > now then ⟨none, some futureMsg, ⟨none⟩⟩
  else
    match t.getGraph.withContext (att - duration) att with
    | .error e => ⟨none, some e, ⟨none⟩⟩
    | .ok g => ⟨some g, none, ⟨none⟩⟩

/-- The pagination block at the end of `GraphTraversal.V`, applied only
when a pagination range is set. -/
def vPaginate : Iterator → List Node → List Node
  | _, [] => []
  | it, n :: rest =>
    if it.done then []
    else
      let nx := it.next
      if nx.2 then n :: vPaginate nx.1 rest
      else vPaginate nx.1 rest

/-- The shared tail of `GraphTraversal.V`: the pagination block applied to
the collected nodes when a range is set, then packaging. -/
def GraphTraversal.vPaged (t : GraphTraversal) (nodes : List Node) : GraphTraversalV :=
  match t.currentStepContext.paginationRange with
  | none => ⟨t, nodes, none⟩
  | some r => ⟨t, vPaginate (GraphStepContext.iterator ⟨some r⟩) nodes, none⟩

/-- `GraphTraversal.V`: all nodes, one node by identifier, or the nodes
matching the metadata built from the parameters; then the pagination
block. -/
def GraphTraversal.vStep (t : GraphTraversal) (s : List GoParam) : GraphTraversalV :=
  if t.error.isSome then ⟨emptyGT, [], t.error⟩
  else
    match s with
    | [p] =>
      match p with
      | .str id =>
        match t.getGraph.getNode id with
        | none => ⟨emptyGT, [], some ("Node " ++ id ++ " does not exist")⟩
        | some n => t.vPaged [n]
      | _ => ⟨emptyGT, [], some "V accepts only a string when there is only one argument"⟩
    | [] => t.vPaged (t.getGraph.getNodes [])
    | _ =>
      match sliceToMetadata s with
      | .error e => ⟨emptyGT, [], some e⟩
      | .ok md => t.vPaged (t.getGraph.getNodes md)

/-- `GraphTraversalV.hasKey`: keep the nodes carrying the metadata key; the
node variant of the source uses no pagination iterator. -/
def hasKeyV (tv : GraphTraversalV) (k : String) : GraphTraversalV :=
  if tv.error.isSome then tv
  else ⟨tv.gt, tv.nodes.filter (fun n => (lookupMeta n.metadata k).isSome), none⟩

/-- `GraphTraversalV.Has`: no parameter is an error, a single string
parameter is key existence, otherwise the parameters build a filter and
each passing node is admitted through the pagination iterator. -/
def hasV (tv : GraphTraversalV) (s : List GoParam) : GraphTraversalV :=
  if tv.error.isSome then tv
  else
    match s with
    | [] => ⟨emptyGT, [], some "At least one parameter must be provided"⟩
    | [p] =>
      match p with
      | .str k => hasKeyV tv k
      | _ => ⟨emptyGT, [], some "Key must be a string"⟩
    | _ =>
      match paramsToFilter s with
      | .error e => ⟨emptyGT, [], some e⟩
      | .ok md =>
        ⟨tv.gt,
         pagedFilter (fun n => matchMetadata n.metadata md)
           tv.gt.currentStepContext.iterator tv.nodes,
         none⟩

/-- The visited key of `GraphTraversalV.Dedup`: the node identifier with no
keys, otherwise the tuple of field values (the source hashes the tuple;
the hash is modelled as the tuple itself). -/
inductive DKey where
  | byId : String → DKey
  | byVals : List MValue → DKey
deriving DecidableEq

/-- The field values of a node at the dedup keys; `none` when any field is
missing, in which case the node is skipped entirely. -/
def collectVals : List String → List (String × MValue) → Option (List MValue)
  | [], _ => some []
  | k :: ks, md =>
    match lookupMeta md k with
    | none => none
    | some v => (collectVals ks md).map (fun vs => v :: vs)

/-- The visited key of a node for the given dedup keys. -/
def dedupKeyOf (keys : List String) (n : Node) : Option DKey :=
  match keys with
  | [] => some (.byId n.id)
  | _ => (collectVals keys n.metadata).map .byVals

/-- The `Dedup` parameters must all be strings. -/
def extractKeys : List GoParam → Except String (List String)
  | [] => .ok []
  | .str k :: rest => (extractKeys rest).map (fun ks => k :: ks)
  | _ => .error "Dedup parameters have to be string keys"

/-- The node loop of `GraphTraversalV.Dedup`: break when the iterator is
done, skip a node with a missing dedup field, skip an already visited key
(without drawing `Next()`), otherwise draw `Next()` and on admission emit
the node and record its key. -/
def dedupLoopV (keys : List String) : Iterator → List DKey → List Node → List Node
  | _, _, [] => []
  | it, visited, n :: rest =>
    if it.done then []
    else
      match dedupKeyOf keys n with
      | none => dedupLoopV keys it visited rest
      | some k =>
        if visited.contains k then dedupLoopV keys it visited rest
        else
          let nx := it.next
          if nx.2 then n :: dedupLoopV keys nx.1 (k :: visited) rest
          else dedupLoopV keys nx.1 visited rest

/-- `GraphTraversalV.Dedup`. -/
def dedupV (tv : GraphTraversalV) (s : List GoParam) : GraphTraversalV :=
  if tv.error.isSome then tv
  else
    match extractKeys s with
    | .error e => ⟨emptyGT, [], some e⟩
    | .ok keys =>
      ⟨tv.gt, dedupLoopV keys tv.gt.currentStepContext.iterator [] tv.nodes, none⟩

/-- `GraphTraversalV.ShortestPathTo`: one lookup per source node guarded by
a visited set that the source never writes to, appending every non-empty
path. -/
def shortestPathTo (tv : GraphTraversalV) (m e : Metadata) : GraphTraversalShortestPath :=
  if tv.error.isSome then ⟨emptyGT, [], tv.error⟩
  else
    let step := fun (acc : List String × List (List Node)) (n : Node) =>
      if acc.1.contains n.id then acc
      else
        let path := tv.gt.getGraph.lookupShortestPath n m e
        -- the source checks the visited set but never inserts into it
        (acc.1, if path.length > 0 then acc.2 ++ [path] else acc.2)
    ⟨tv.gt, (tv.nodes.foldl step ([], [])).2, none⟩

/-- `GraphTraversalV.Out`: children via matching edges, every produced
child drawing `Next()` on the pagination iterator. -/
def outStep (tv : GraphTraversalV) (s : List GoParam) : GraphTraversalV :=
  if tv.error.isSome then tv
  else
    match sliceToMetadata s with
    | .error e => ⟨emptyGT, [], some e⟩
    | .ok md =>
      ⟨tv.gt,
       pagedCollect true (fun n => tv.gt.getGraph.lookupChildren n md [])
         tv.gt.currentStepContext.iterator tv.nodes,
       none⟩

/-- `GraphTraversalV.In`: parents via matching edges; the loop of the
source checks `Done()` but never calls `Next()`. -/
def inStep (tv : GraphTraversalV) (s : List GoParam) : GraphTraversalV :=
  if tv.error.isSome then tv
  else
    match sliceToMetadata s with
    | .error e => ⟨emptyGT, [], some e⟩
    | .ok md =>
      ⟨tv.gt,
       pagedCollect false (fun n => tv.gt.getGraph.lookupParents n md [])
         tv.gt.currentStepContext.iterator tv.nodes,
       none⟩

/-- `GraphTraversalV.Both`: through each incident edge, the far endpoints
matching the metadata, admitted through the pagination iterator. -/
def bothStep (tv : GraphTraversalV) (s : List GoParam) : GraphTraversalV :=
  if tv.error.isSome then tv
  else
    match sliceToMetadata s with
    | .error e => ⟨emptyGT, [], some e⟩
    | .ok md =>
      let g := tv.gt.getGraph
      ⟨tv.gt,
       pagedCollect true
         (fun n =>
           (g.getNodeEdges n []).flatMap (fun e =>
             if e.child == n.id then (g.getEdgeNodes e md []).1
             else (g.getEdgeNodes e [] md).2))
         tv.gt.currentStepContext.iterator tv.nodes,
       none⟩

/-- `GraphTraversalV.OutE`: edges whose parent is the node; the loop of
the source checks `Done()` but never calls `Next()`. -/
def outE (tv : GraphTraversalV) (s : List GoParam) : GraphTraversalE :=
  if tv.error.isSome then ⟨emptyGT, [], tv.error⟩
  else
    match sliceToMetadata s with
    | .error e => ⟨emptyGT, [], some e⟩
    | .ok md =>
      ⟨tv.gt,
       pagedCollect false
         (fun n => (tv.gt.getGraph.getNodeEdges n md).filter (fun e => e.parent == n.id))
         tv.gt.currentStepContext.iterator tv.nodes,
       none⟩

/-- `GraphTraversalV.InE`: edges whose child is the node, admitted through
the pagination iterator. -/
def inE (tv : GraphTraversalV) (s : List GoParam) : GraphTraversalE :=
  if tv.error.isSome then ⟨emptyGT, [], tv.error⟩
  else
    match sliceToMetadata s with
    | .error e => ⟨tv.gt, [], some e⟩
    | .ok md =>
      ⟨tv.gt,
       pagedCollect true
         (fun n => (tv.gt.getGraph.getNodeEdges n md).filter (fun e => e.child == n.id))
         tv.gt.currentStepContext.iterator tv.nodes,
       none⟩

/-- `GraphTraversalV.Count`. -/
def countV (tv : GraphTraversalV) : GraphTraversalValue :=
  if tv.error.isSome then ⟨emptyGT, .nil, tv.error⟩
  else ⟨tv.gt, .val (.int tv.nodes.length), none⟩

/-- `GraphTraversalV.Sum`: sum of the integer values of the field over the
nodes carrying it (the float accumulation of the source is modelled over
the integers contributed by `GetFieldInt64`). -/
def sumV (tv : GraphTraversalV) (s : List GoParam) : GraphTraversalValue :=
  if tv.error.isSome then ⟨emptyGT, .nil, tv.error⟩
  else
    match s with
    | [.str k] =>
      ⟨tv.gt,
       .val (.int (tv.nodes.foldl
         (fun acc n =>
           match lookupMeta n.metadata k with
           | some (.int v) => acc + v
           | _ => acc) 0)),
       none⟩
    | [_] => ⟨emptyGT, .nil, some "Sum parameter has to be a string key"⟩
    | _ => ⟨emptyGT, .nil, some "Sum requires 1 parameter"⟩

/-- `GraphTraversalV.PropertyValues`: the values of the key over the nodes
carrying it (the source asserts the first parameter is a string). -/
def propertyValues (tv : GraphTraversalV) (k : String) : GraphTraversalValue :=
  if tv.error.isSome then ⟨emptyGT, .nil, tv.error⟩
  else ⟨tv.gt, .arr (tv.nodes.filterMap (fun n => lookupMeta n.metadata k)), none⟩

/-- `GraphTraversalV.PropertyKeys`: every metadata key of every node. -/
def propertyKeys (tv : GraphTraversalV) : GraphTraversalValue :=
  if tv.error.isSome then ⟨emptyGT, .nil, tv.error⟩
  else ⟨tv.gt, .arr (tv.nodes.flatMap (fun n => n.metadata.map (fun kv => MValue.str kv.1))), none⟩

/-- The Go slice `l[lo:hi]` pattern of the `Range` steps: elements at
indices `lo ≤ i < hi` (the source loop would panic on a negative start;
the model clamps, which no claim exercises). -/
def sliceRange (l : List α) (lo hi : Int) : List α :=
  ((l.take hi.toNat).drop lo.toNat).take (hi - lo).toNat

/-- `GraphTraversalV.Range`: exactly two integer parameters slice the node
sequence. -/
def rangeV (tv : GraphTraversalV) (s : List GoParam) : GraphTraversalV :=
  if tv.error.isSome then ⟨emptyGT, [], tv.error⟩
  else
    match s with
    | [.int lo, .int hi] => ⟨tv.gt, sliceRange tv.nodes lo hi, none⟩
    | [_, _] => ⟨emptyGT, [], some "parameters of range must be integers"⟩
    | _ => ⟨emptyGT, [], some "2 parameters must be provided to \x27range\x27"⟩

/-- `GraphTraversalV.Limit`: `Range(0, n)`; the node variant forwards to
`Range` without its own error check. -/
def limitV (tv : GraphTraversalV) (p : GoParam) : GraphTraversalV :=
  rangeV tv [.int 0, p]

/-- `GraphTraversalE.Count`. -/
def countE (te : GraphTraversalE) : GraphTraversalValue :=
  if te.error.isSome then ⟨emptyGT, .nil, te.error⟩
  else ⟨te.gt, .val (.int te.edges.length), none⟩

/-- `GraphTraversalE.Range`. -/
def rangeE (te : GraphTraversalE) (s : List GoParam) : GraphTraversalE :=
  if te.error.isSome then te
  else
    match s with
    | [.int lo, .int hi] => ⟨te.gt, sliceRange te.edges lo hi, none⟩
    | [_, _] => ⟨emptyGT, [], some "parameters of range must be integers"⟩
    | _ => ⟨te.gt, [], some "2 parameters must be provided to \x27range\x27"⟩

/-- `GraphTraversalE.Limit`: the edge variant checks the error itself
before forwarding to `Range(0, n)`. -/
def limitE (te : GraphTraversalE) (p : GoParam) : GraphTraversalE :=
  if te.error.isSome then te
  else rangeE te [.int 0, p]

/-- The visited key of `GraphTraversalE.Dedup`: the edge identifier, or the
metadata value at the key when the edge carries it; the two shapes are
distinct map keys as in the source, where an identifier and an interface
value never compare equal. -/
inductive EKey where
  | byId : String → EKey
  | byVal : MValue → EKey
deriving DecidableEq

/-- The visited key of an edge for the given dedup key. -/
def edgeKeyOf (key : String) (e : Edge) : EKey :=
  if key != "" then
    match lookupMeta e.metadata key with
    | some v => .byVal v
    | none => .byId e.id
  else .byId e.id

/-- The edge loop of `GraphTraversalE.Dedup` (the edge variant uses no
pagination iterator). -/
def dedupLoopE (key : String) : List EKey → List Edge → List Edge
  | _, [] => []
  | visited, e :: rest =>
    let k := edgeKeyOf key e
    if visited.contains k then dedupLoopE key visited rest
    else e :: dedupLoopE key (k :: visited) rest

/-- `GraphTraversalE.Dedup`: only the first parameter is used as the dedup
key and it must be a string. -/
def dedupE (te : GraphTraversalE) (s : List GoParam) : GraphTraversalE :=
  if te.error.isSome then te
  else
    match s with
    | .int _ :: _ => ⟨emptyGT, [], some "Dedup parameter has to be a string key"⟩
    | .str k :: _ => ⟨te.gt, dedupLoopE k [] te.edges, none⟩
    | [] => ⟨te.gt, dedupLoopE "" [] te.edges, none⟩

/-- `GraphTraversalE.hasKey`: keep the edges carrying the key, each kept
edge admitted through the pagination iterator. -/
def hasKeyE (te : GraphTraversalE) (k : String) : GraphTraversalE :=
  if te.error.isSome then te
  else
    ⟨te.gt,
     pagedFilter (fun e => (lookupMeta e.metadata k).isSome)
       te.gt.currentStepContext.iterator te.edges,
     none⟩

/-- `GraphTraversalE.Has`. -/
def hasE (te : GraphTraversalE) (s : List GoParam) : GraphTraversalE :=
  if te.error.isSome then te
  else
    match s with
    | [] => ⟨emptyGT, [], some "At least one parameters must be provided"⟩
    | [p] =>
      match p with
      | .str k => hasKeyE te k
      | _ => ⟨emptyGT, [], some "Key must be a string"⟩
    | _ =>
      match sliceToMetadata s with
      | .error e => ⟨emptyGT, [], some e⟩
      | .ok md =>
        ⟨te.gt,
         pagedFilter (fun e => matchMetadata e.metadata md)
           te.gt.currentStepContext.iterator te.edges,
         none⟩

/-- `GraphTraversalE.InV`: parent endpoints of each edge matching the
metadata, admitted through the pagination iterator (the plain break of the
inner loop of the source yields the same output as stopping the step). -/
def inVStep (te : GraphTraversalE) (s : List GoParam) : GraphTraversalV :=
  if te.error.isSome then ⟨emptyGT, [], te.error⟩
  else
    match sliceToMetadata s with
    | .error e => ⟨emptyGT, [], some e⟩
    | .ok md =>
      ⟨te.gt,
       pagedCollect true (fun e => (te.gt.getGraph.getEdgeNodes e md []).1)
         te.gt.currentStepContext.iterator te.edges,
       none⟩

/-- `GraphTraversalE.OutV`: child endpoints of each edge matching the
metadata, admitted through the pagination iterator. -/
def outVStep (te : GraphTraversalE) (s : List GoParam) : GraphTraversalV :=
  if te.error.isSome then ⟨emptyGT, [], te.error⟩
  else
    match sliceToMetadata s with
    | .error e => ⟨emptyGT, [], some e⟩
    | .ok md =>
      ⟨te.gt,
       pagedCollect true (fun e => (te.gt.getGraph.getEdgeNodes e [] md).2)
         te.gt.currentStepContext.iterator te.edges,
       none⟩

/-- `GraphTraversalValue.Dedup`: de-duplicate the value sequence by
equality of values, keeping first occurrences (the nil value of an errored
step never reaches the loop because of the error check). -/
def dedupValueLoop : List MValue → List MValue → List MValue
  | _, [] => []
  | visited, v :: rest =>
    if visited.contains v then dedupValueLoop visited rest
    else v :: dedupValueLoop (v :: visited) rest

/-- The scalar sequence a `GraphTraversalValue` holds. -/
def GoValue.toList : GoValue → List MValue
  | .arr l => l
  | .val v => [v]
  | .nil => []

/-- `GraphTraversalValue.Dedup`. -/
def dedupValue (t : GraphTraversalValue) : GraphTraversalValue :=
  if t.error.isSome then t
  else ⟨t.gt, .arr (dedupValueLoop [] t.value.toList), none⟩

/-! ## TID mapper (`topology/tid_mapper.go`) -/

/-- Insert or replace a metadata key. -/
def setMeta (md : List (String × MValue)) (k : String) (v : MValue) :
    List (String × MValue) :=
  if (md.find? (fun kv => kv.1 == k)).isSome then
    md.map (fun kv => if kv.1 == k then (k, v) else kv)
  else md ++ [(k, v)]

/-- Modelled from the spec: `Graph.AddMetadata` on a node, updating the
node in place. -/
def Graph.addMetadata (g : Graph) (nid k : String) (v : MValue) : Graph :=
  ⟨g.nodes.map (fun n => if n.id == nid then ⟨n.id, n.host, setMeta n.metadata k v⟩ else n),
   g.edges⟩

/-- The state threaded through one TID-mapper event: the graph, the cached
host identifier, the log lines emitted, and the `AddMetadata` calls
performed (node identifier, key, value) in order. -/
structure MapperState where
  g : Graph
  hostID : String
  logs : List String
  calls : List (String × String × String)
deriving DecidableEq

/-- Record an `AddMetadata(node, key, value)` call of the mapper. -/
def MapperState.addMeta (st : MapperState) (nid k v : String) : MapperState :=
  ⟨st.g.addMetadata nid k (.str v), st.hostID, st.logs, st.calls ++ [(nid, k, v)]⟩

/-- `TIDMapper.setTID`: requires the child to carry `Type` and `Name` and
the parent a `TID`; then assigns the child
`TID = uuidv5(parentTID + Name + Type)` over the OID namespace, `u`
standing for the external UUIDv5 hash. -/
def setTID (u : String → String) (st : MapperState) (parent child : Node) : MapperState :=
  let tp := (child.getFieldString "Type").getD ""
  if tp == "" then st
  else
    let name := (child.getFieldString "Name").getD ""
    if name == "" then st
    else
      let tid := (parent.getFieldString "TID").getD ""
      if tid != "" then st.addMeta child.id "TID" (u (tid ++ name ++ tp))
      else st

/-- `TIDMapper.setChildrenTID`: assign TIDs to the ownership children of a
parent, from a single snapshot of the child list. -/
def setChildrenTID (u : String → String) (st : MapperState) (parent : Node) : MapperState :=
  (st.g.lookupChildren parent [] [("RelationType", .str "ownership")]).foldl
    (fun s c => setTID u s parent c) st

/-- The node as currently stored in the graph of the state (the Go nodes
are mutated in place, so a node that just received a TID must be re-read
before being used as a parent). -/
def MapperState.refetch (st : MapperState) (n : Node) : Node :=
  (st.g.getNode n.id).getD n

/-- The log line of the ownership-parent uniqueness violation. -/
def ownershipLog : String := "A should always only have one ownership parent"

/-- `TIDMapper.onNodeEvent`: assign a TID to a node that has none, by the
rules keyed on its `Type` (`host`, `netns`, `ovsport`), its
`Probe = fabric` marking, or through its unique ownership parent; with
more than one ownership parent the violation is logged. -/
def onNodeEventT (u : String → String) (hostID : String) (g : Graph) (n : Node) :
    MapperState :=
  let st0 : MapperState := ⟨g, hostID, [], []⟩
  if (n.getFieldString "TID").isSome then st0
  else
    match n.getFieldString "Type" with
    | none => st0
    | some tp =>
      if tp == "host" then
        let st1 : MapperState := ⟨st0.g, n.id, st0.logs, st0.calls⟩
        let st2 := st1.addMeta n.id "TID" n.id
        setChildrenTID u st2 (st2.refetch n)
      else if tp == "netns" then
        let path := (n.getFieldString "Path").getD ""
        if path != "" then
          let st2 := st0.addMeta n.id "TID" (u (st0.hostID ++ path ++ tp))
          setChildrenTID u st2 (st2.refetch n)
        else st0
      else if tp == "ovsport" then
        let uu := (n.getFieldString "UUID").getD ""
        if uu != "" then
          let st2 := st0.addMeta n.id "TID" (u (st0.hostID ++ uu ++ tp))
          setChildrenTID u st2 (st2.refetch n)
        else st0
      else
        if (n.getFieldString "Probe").getD "" == "fabric" then
          st0.addMeta n.id "TID" n.id
        else
          let parents := g.lookupParents n [] [("RelationType", .str "ownership")]
          if parents.length > 1 then
            ⟨st0.g, st0.hostID, st0.logs ++ [ownershipLog], st0.calls⟩
          else
            match parents with
            | [p] => setTID u st0 p n
            | _ => st0

/-! ## Capture orchestrator (`flow/ondemand/client/client.go`) -/

/-- A capture resource: its UUID and its traversal query. -/
structure Capture where
  uuid : String
  gremlinQuery : String
deriving DecidableEq

/-- An element of the value sequence a gremlin query resolves to: a node,
a list of nodes (shortest-path results), or a value of another shape. -/
inductive ResolvedItem where
  | node : Node → ResolvedItem
  | nodeList : List Node → ResolvedItem
  | other : ResolvedItem
deriving DecidableEq

/-- A message on the `ondemand` bus channel: `CaptureStart` and
`CaptureStop` are directed to a host, `CaptureAdded` and `CaptureDeleted`
are broadcast. -/
inductive WSMsg where
  | captureStart : (nodeID : String) → (captureUUID : String) → (host : String) → WSMsg
  | captureStop : (nodeID : String) → (host : String) → WSMsg
  | captureAdded : (captureUUID : String) → WSMsg
  | captureDeleted : (captureUUID : String) → WSMsg
deriving DecidableEq

/-- Whether a message is one of the directed probe commands. -/
def WSMsg.isStartOrStop : WSMsg → Bool
  | .captureStart _ _ _ => true
  | .captureStop _ _ => true
  | _ => false

/-- Whether a node already carries the `Capture/ID` metadata key. -/
def hasCaptureID (n : Node) : Bool :=
  (n.getFieldString "Capture/ID").isSome

/-- The inner loop of `registerProbes` over a list-of-nodes result: the
issued `CaptureStart` messages, and whether the early return of the source
was taken on an already-bound node. -/
def registerNodeList : List Node → Capture → List WSMsg × Bool
  | [], _ => ([], false)
  | n :: rest, c =>
    if hasCaptureID n then ([], true)
    else
      let r := registerNodeList rest c
      (.captureStart n.id c.uuid n.host :: r.1, r.2)

/-- `registerProbes`: the `CaptureStart` messages issued for the resolved
values; an already-bound node makes the source return from the entire
function, dropping every remaining resolved value. -/
def registerProbes : List ResolvedItem → Capture → List WSMsg
  | [], _ => []
  | .node n :: rest, c =>
    if hasCaptureID n then []
    else .captureStart n.id c.uuid n.host :: registerProbes rest c
  | .nodeList l :: rest, c =>
    let r := registerNodeList l c
    if r.2 then r.1
    else r.1 ++ registerProbes rest c
  | .other :: rest, c => registerProbes rest c

/-- `applyGremlinExpr`: the resolved values of the query, or the empty
sequence when the query errors; `resolve` stands for the external
`topology.ExecuteGremlinQuery` front end. -/
def applyGremlinExpr (resolve : String → Except String (List ResolvedItem))
    (query : String) : List ResolvedItem :=
  match resolve query with
  | .error _ => []
  | .ok vs => vs

/-- `onCaptureAdded`: a no-op when not master; otherwise store the capture
and issue the `CaptureStart` messages of `registerProbes` over the
resolved query. -/
def onCaptureAdded (isMaster : Bool)
    (resolve : String → Except String (List ResolvedItem)) (c : Capture) :
    List WSMsg :=
  if !isMaster then []
  else
    let nodes := applyGremlinExpr resolve c.gremlinQuery
    if nodes.length > 0 then registerProbes nodes c else []

/-- The value loop of `onCaptureDeleted`: a `CaptureStop` per resolved
node; a value of any other shape makes the source return from the loop. -/
def stopMsgs : List ResolvedItem → List WSMsg
  | [] => []
  | .node n :: rest => .captureStop n.id n.host :: stopMsgs rest
  | .nodeList l :: rest => l.map (fun n => WSMsg.captureStop n.id n.host) ++ stopMsgs rest
  | .other :: _ => []

/-- `onCaptureDeleted`: a no-op when not master; otherwise remove the
capture and issue `CaptureStop` messages over the resolved query, none
when the query errors. -/
def onCaptureDeleted (isMaster : Bool)
    (resolve : String → Except String (List ResolvedItem)) (c : Capture) :
    List WSMsg :=
  if !isMaster then []
  else
    match resolve c.gremlinQuery with
    | .error _ => []
    | .ok vs => stopMsgs vs

/-- `onNodeEvent` of the orchestrator: a no-op when not master; otherwise
re-evaluate every known capture and issue its `registerProbes` messages. -/
def onNodeEventO (isMaster : Bool)
    (resolve : String → Except String (List ResolvedItem))
    (captures : List Capture) : List WSMsg :=
  if !isMaster then []
  else
    captures.flatMap (fun c =>
      let res := applyGremlinExpr resolve c.gremlinQuery
      if res.length > 0 then registerProbes res c else [])

/-- `onAPIWatcherEvent`: on a create-like action the `CaptureAdded`
broadcast is sent before `onCaptureAdded` runs (and before any leadership
check), on a delete-like action the `CaptureDeleted` broadcast before
`onCaptureDeleted`. -/
def onAPIWatcherEvent (isMaster : Bool)
    (resolve : String → Except String (List ResolvedItem))
    (action : String) (c : Capture) : List WSMsg :=
  if action == "init" || action == "create" || action == "set" || action == "update" then
    .captureAdded c.uuid :: onCaptureAdded isMaster resolve c
  else if action == "expire" || action == "delete" then
    .captureDeleted c.uuid :: onCaptureDeleted isMaster resolve c
  else []

/-! ## Regex predicate constructor (`traversal.go`) -/

/-- A compiled regular expression, abstracted to its matching function. -/
abbrev CompiledRegexp := String → Bool

/-- `RegexMetadataMatcher`: the compiled pattern (nil when compilation
failed) together with the original pattern string. -/
structure RegexMetadataMatcher where
  regexp : Option CompiledRegexp
  pattern : String

/-- `Regex`: build the matcher, discarding any compilation error;
`compile` stands for the external `regexp.Compile`, returning `none`
exactly when compilation fails (the Go call returns a nil pointer and an
error that the source drops). -/
def Regex (compile : String → Option CompiledRegexp) (expr : String) :
    RegexMetadataMatcher :=
  ⟨compile expr, expr⟩

/-! ## Theorems -/

/-- C1: `registerProbes` does not issue a `CaptureStart` for every resolved
node lacking `Capture/ID`: with a first resolved node already carrying
`Capture/ID`, the early return of the source drops the `CaptureStart` of
the second, unbound node entirely, while the same unbound node alone does
receive its `CaptureStart` directed to its host. -/
theorem registerProbes_early_return_drops_nodes :
    registerProbes
      [.node ⟨"n1", "h1", [("Capture/ID", .str "c0")]⟩, .node ⟨"n2", "h2", []⟩]
      ⟨"cap", "q"⟩ = [] ∧
    registerProbes [.node ⟨"n2", "h2", []⟩] ⟨"cap", "q"⟩ =
      [.captureStart "n2" "cap" "h2"] := by
  constructor <;> decide

/-- C2 counterexample: a create watcher event handled while `IsMaster()` is
false still sends an outbound `CaptureAdded` broadcast on the bus, because
the source broadcasts before the leadership check of `onCaptureAdded`. -/
theorem watcherEvent_notMaster_still_broadcasts :
    onAPIWatcherEvent false (fun _ => .ok []) "create" ⟨"cap", "q"⟩ =
      [.captureAdded "cap"] := by
  decide

/-- C2 amended: when `IsMaster()` is false no directed `CaptureStart` or
`CaptureStop` message is sent for any watcher or graph event — the only
outbound messages are the `CaptureAdded`/`CaptureDeleted` broadcasts that
watcher events send regardless of leadership — and a graph event sends
nothing at all. -/
theorem notMaster_no_start_stop (resolve : String → Except String (List ResolvedItem))
    (action : String) (c : Capture) (captures : List Capture) :
    (onAPIWatcherEvent false resolve action c).all (fun m => !m.isStartOrStop) = true ∧
    onNodeEventO false resolve captures = [] := by
  refine ⟨?_, by simp [onNodeEventO]⟩
  unfold onAPIWatcherEvent onCaptureAdded onCaptureDeleted
  split
  · simp [WSMsg.isStartOrStop]
  · split
    · simp [WSMsg.isStartOrStop]
    · simp

/-- C7: `ShortestPathTo` does not coalesce duplicate sources; the visited
set of the source is never written, so a node step holding the same source
node twice yields the same shortest path twice. -/
theorem shortestPathTo_duplicate_sources_not_coalesced :
    (shortestPathTo
      ⟨⟨some ⟨[⟨"a", "h", [("Type", .str "x")]⟩, ⟨"b", "h", [("Type", .str "target")]⟩],
              [⟨"e", "a", "b", []⟩]⟩, none, ⟨none⟩⟩,
        [⟨"a", "h", [("Type", .str "x")]⟩, ⟨"a", "h", [("Type", .str "x")]⟩], none⟩
      [("Type", .str "target")] []).paths =
    [[⟨"a", "h", [("Type", .str "x")]⟩, ⟨"b", "h", [("Type", .str "target")]⟩],
     [⟨"a", "h", [("Type", .str "x")]⟩, ⟨"b", "h", [("Type", .str "target")]⟩]] := by
  decide

/-- C8: under the pagination range `[0, 1)` the `In` and `OutE` steps admit
every produced element because their loops never advance the counting
iterator, while `Out` admits exactly the element at index 0. -/
theorem in_outE_ignore_pagination :
    (inStep
      ⟨⟨some ⟨[⟨"n", "h", []⟩, ⟨"p1", "h", []⟩, ⟨"p2", "h", []⟩],
              [⟨"e1", "p1", "n", []⟩, ⟨"e2", "p2", "n", []⟩]⟩, none, ⟨some (0, 1)⟩⟩,
        [⟨"n", "h", []⟩], none⟩ []).nodes =
      [⟨"p1", "h", []⟩, ⟨"p2", "h", []⟩] ∧
    (outE
      ⟨⟨some ⟨[⟨"m", "h", []⟩, ⟨"c1", "h", []⟩, ⟨"c2", "h", []⟩],
              [⟨"f1", "m", "c1", []⟩, ⟨"f2", "m", "c2", []⟩]⟩, none, ⟨some (0, 1)⟩⟩,
        [⟨"m", "h", []⟩], none⟩ []).edges =
      [⟨"f1", "m", "c1", []⟩, ⟨"f2", "m", "c2", []⟩] ∧
    (outStep
      ⟨⟨some ⟨[⟨"m", "h", []⟩, ⟨"c1", "h", []⟩, ⟨"c2", "h", []⟩],
              [⟨"f1", "m", "c1", []⟩, ⟨"f2", "m", "c2", []⟩]⟩, none, ⟨some (0, 1)⟩⟩,
        [⟨"m", "h", []⟩], none⟩ []).nodes =
      [⟨"c1", "h", []⟩] := by
  refine ⟨by decide, by decide, by decide⟩

/-- C4: a `Context` time strictly after the current time yields a traversal
carrying the future error, whose text contains "future", and bound to no
graph. -/
theorem context_future_rejected (t : GraphTraversal) (now att d : Int)
    (h0 : t.error = none) (h1 : att > now) :
    (t.contextStep now att d).error = some futureMsg ∧
    (∃ pre post, futureMsg = pre ++ "future" ++ post) ∧
    (t.contextStep now att d).graph = none := by
  refine ⟨?_, ⟨"Sorry, I can\x27t predict the ", "", by decide⟩, ?_⟩ <;>
    simp [GraphTraversal.contextStep, h0, h1]

/-- C4 witness at a concrete traversal and times. -/
theorem context_future_rejected_witness :
    ((⟨none, none, ⟨none⟩⟩ : GraphTraversal).contextStep 0 1 0).error = some futureMsg ∧
    (∃ pre post, futureMsg = pre ++ "future" ++ post) ∧
    ((⟨none, none, ⟨none⟩⟩ : GraphTraversal).contextStep 0 1 0).graph = none :=
  context_future_rejected ⟨none, none, ⟨none⟩⟩ 0 1 0 rfl (by decide)

/-- `setTID` only ever appends to the `AddMetadata` call log. -/
theorem setTID_calls_append (u : String → String) (st : MapperState) (par c : Node) :
    ∃ tail, (setTID u st par c).calls = st.calls ++ tail := by
  unfold setTID
  dsimp only
  split
  · exact ⟨[], (List.append_nil _).symm⟩
  · split
    · exact ⟨[], (List.append_nil _).symm⟩
    · split
      · exact ⟨_, rfl⟩
      · exact ⟨[], (List.append_nil _).symm⟩

/-- `setChildrenTID` only ever appends to the `AddMetadata` call log. -/
theorem setChildrenTID_calls_append (u : String → String) (st : MapperState) (par : Node) :
    ∃ tail, (setChildrenTID u st par).calls = st.calls ++ tail := by
  unfold setChildrenTID
  generalize (st.g.lookupChildren par [] [("RelationType", .str "ownership")]) = l
  induction l generalizing st with
  | nil => exact ⟨[], (List.append_nil _).symm⟩
  | cons c cs ih =>
    obtain ⟨t1, h1⟩ := setTID_calls_append u st par c
    obtain ⟨t2, h2⟩ := ih (setTID u st par c)
    exact ⟨t1 ++ t2, by simp [h2, h1]⟩

/-- C5: a node without a TID, of type `netns` and with a non-empty `Path`,
is assigned `TID = uuidv5(hostID + Path + "netns")` as the first
`AddMetadata` call of the mapper event; the value depends only on the
cached host identifier and the path, so a second run over any graph and
any node with the same host identifier and path assigns the same TID. -/
theorem tid_netns_uuidv5 (u : String → String) (hostID hostID₂ : String)
    (g g₂ : Graph) (n n₂ : Node) (p : String)
    (h1 : n.getFieldString "TID" = none) (h2 : n.getFieldString "Type" = some "netns")
    (h3 : n.getFieldString "Path" = some p) (h4 : p ≠ "")
    (k1 : n₂.getFieldString "TID" = none) (k2 : n₂.getFieldString "Type" = some "netns")
    (k3 : n₂.getFieldString "Path" = some p) (hh : hostID₂ = hostID) :
    (onNodeEventT u hostID g n).calls.head? =
      some (n.id, "TID", u (hostID ++ p ++ "netns")) ∧
    (onNodeEventT u hostID₂ g₂ n₂).calls.head? =
      some (n₂.id, "TID", u (hostID ++ p ++ "netns")) := by
  constructor
  · unfold onNodeEventT
    simp only [h1, h2, Option.isSome_none, Bool.false_eq_true, if_false, h3,
      Option.getD_some]
    simp only [show ("netns" == "host") = false from rfl, Bool.false_eq_true, if_false,
      show ("netns" == "netns") = true from rfl, if_true]
    rw [if_pos (by simpa using h4)]
    obtain ⟨tail, ht⟩ := setChildrenTID_calls_append u
      (MapperState.addMeta ⟨g, hostID, [], []⟩ n.id "TID" (u (hostID ++ p ++ "netns")))
      ((MapperState.addMeta ⟨g, hostID, [], []⟩ n.id "TID"
        (u (hostID ++ p ++ "netns"))).refetch n)
    rw [ht]
    rfl
  · rw [hh]
    unfold onNodeEventT
    simp only [k1, k2, Option.isSome_none, Bool.false_eq_true, if_false, k3,
      Option.getD_some]
    simp only [show ("netns" == "host") = false from rfl, Bool.false_eq_true, if_false,
      show ("netns" == "netns") = true from rfl, if_true]
    rw [if_pos (by simpa using h4)]
    obtain ⟨tail, ht⟩ := setChildrenTID_calls_append u
      (MapperState.addMeta ⟨g₂, hostID, [], []⟩ n₂.id "TID" (u (hostID ++ p ++ "netns")))
      ((MapperState.addMeta ⟨g₂, hostID, [], []⟩ n₂.id "TID"
        (u (hostID ++ p ++ "netns"))).refetch n₂)
    rw [ht]
    rfl

/-- C5 witness: a concrete netns node handled twice with the same host
identifier and path, on different graphs, receives the same TID. -/
theorem tid_netns_uuidv5_witness :
    (onNodeEventT (fun s => "uuid:" ++ s) "host-1" ⟨[], []⟩
      ⟨"N", "H", [("Type", .str "netns"), ("Path", .str "/var/run/netns/x")]⟩).calls.head? =
      some ("N", "TID", "uuid:" ++ ("host-1" ++ "/var/run/netns/x" ++ "netns")) ∧
    (onNodeEventT (fun s => "uuid:" ++ s) "host-1"
      ⟨[⟨"o", "h", []⟩], []⟩
      ⟨"N2", "H2", [("Type", .str "netns"), ("Path", .str "/var/run/netns/x")]⟩).calls.head? =
      some ("N2", "TID", "uuid:" ++ ("host-1" ++ "/var/run/netns/x" ++ "netns")) :=
  tid_netns_uuidv5 (fun s => "uuid:" ++ s) "host-1" "host-1" ⟨[], []⟩
    ⟨[⟨"o", "h", []⟩], []⟩
    ⟨"N", "H", [("Type", .str "netns"), ("Path", .str "/var/run/netns/x")]⟩
    ⟨"N2", "H2", [("Type", .str "netns"), ("Path", .str "/var/run/netns/x")]⟩
    "/var/run/netns/x" rfl rfl rfl (by decide) rfl rfl rfl rfl

/-- C6 counterexample: a node with two ownership parents, both carrying
TIDs, and a `Name` and `Type` of its own, gets no TID at all from the
mapper event — the source only logs the violation and skips `setTID` —
while the claim would have the first parent provide one. -/
theorem multiParent_no_tid_counterexample :
    (onNodeEventT (fun s => s) "h0"
      ⟨[⟨"p1", "h", [("TID", .str "t1")]⟩, ⟨"p2", "h", [("TID", .str "t2")]⟩,
        ⟨"n", "h", [("Name", .str "eth0"), ("Type", .str "veth")]⟩],
       [⟨"e1", "p1", "n", [("RelationType", .str "ownership")]⟩,
        ⟨"e2", "p2", "n", [("RelationType", .str "ownership")]⟩]⟩
      ⟨"n", "h", [("Name", .str "eth0"), ("Type", .str "veth")]⟩).calls = [] ∧
    (onNodeEventT (fun s => s) "h0"
      ⟨[⟨"p1", "h", [("TID", .str "t1")]⟩, ⟨"p2", "h", [("TID", .str "t2")]⟩,
        ⟨"n", "h", [("Name", .str "eth0"), ("Type", .str "veth")]⟩],
       [⟨"e1", "p1", "n", [("RelationType", .str "ownership")]⟩,
        ⟨"e2", "p2", "n", [("RelationType", .str "ownership")]⟩]⟩
      ⟨"n", "h", [("Name", .str "eth0"), ("Type", .str "veth")]⟩).logs =
      [ownershipLog] := by
  constructor <;> decide

/-- C6 amended: when a node (not a host, netns or ovsport, and not a
fabric probe) without a TID has more than one ownership parent, the mapper
logs the violation and performs no `AddMetadata` call: no parent is used
and no TID is computed. -/
theorem multiParent_logged_no_tid (u : String → String) (hostID : String) (g : Graph)
    (n : Node) (tp : String)
    (h1 : n.getFieldString "TID" = none) (h2 : n.getFieldString "Type" = some tp)
    (h3 : tp ≠ "host") (h4 : tp ≠ "netns") (h5 : tp ≠ "ovsport")
    (h6 : (n.getFieldString "Probe").getD "" ≠ "fabric")
    (h7 : (g.lookupParents n [] [("RelationType", .str "ownership")]).length > 1) :
    (onNodeEventT u hostID g n).logs = [ownershipLog] ∧
    (onNodeEventT u hostID g n).calls = [] := by
  unfold onNodeEventT
  simp [h1, h2, h3, h4, h5, h6, h7]

/-- C6 witness at the concrete two-parent graph. -/
theorem multiParent_logged_no_tid_witness :
    (onNodeEventT (fun s => "u" ++ s) "h9"
      ⟨[⟨"q1", "h", [("TID", .str "t1")]⟩, ⟨"q2", "h", [("TID", .str "t2")]⟩,
        ⟨"w", "h", [("Name", .str "eth1"), ("Type", .str "bond")]⟩],
       [⟨"g1", "q1", "w", [("RelationType", .str "ownership")]⟩,
        ⟨"g2", "q2", "w", [("RelationType", .str "ownership")]⟩]⟩
      ⟨"w", "h", [("Name", .str "eth1"), ("Type", .str "bond")]⟩).logs =
      [ownershipLog] ∧
    (onNodeEventT (fun s => "u" ++ s) "h9"
      ⟨[⟨"q1", "h", [("TID", .str "t1")]⟩, ⟨"q2", "h", [("TID", .str "t2")]⟩,
        ⟨"w", "h", [("Name", .str "eth1"), ("Type", .str "bond")]⟩],
       [⟨"g1", "q1", "w", [("RelationType", .str "ownership")]⟩,
        ⟨"g2", "q2", "w", [("RelationType", .str "ownership")]⟩]⟩
      ⟨"w", "h", [("Name", .str "eth1"), ("Type", .str "bond")]⟩).calls = [] :=
  multiParent_logged_no_tid (fun s => "u" ++ s) "h9" _ _ "bond"
    rfl rfl (by decide) (by decide) (by decide) (by decide) (by decide)

/-- C10: the `Regex` predicate constructor always returns a matcher and
signals no error; the compilation failure is discarded, leaving a nil
compiled pattern together with the original pattern string. -/
theorem regex_discards_compile_error (compile : String → Option CompiledRegexp)
    (expr : String) :
    (Regex compile expr).pattern = expr ∧
    (compile expr = none → (Regex compile expr).regexp = none) :=
  ⟨rfl, fun h => by simp [Regex, h]⟩

/-- C10 witness: an invalid pattern still yields a matcher, with a nil
compiled pattern and the original text. -/
theorem regex_discards_compile_error_witness :
    (Regex (fun _ => none) "(").pattern = "(" ∧
    (Regex (fun _ => none) "(").regexp = none := by
  have h := regex_discards_compile_error (fun _ => none) "("
  exact ⟨h.1, h.2 rfl⟩

/-- The dedup-output invariant for nodes: every element has a dedup key,
the keys are pairwise distinct, and none is in the initial visited set. -/
def KeysOkV (keys : List String) : List DKey → List Node → Prop
  | _, [] => True
  | visited, n :: rest =>
    ∃ k, dedupKeyOf keys n = some k ∧ k ∉ visited ∧
      KeysOkV keys (k :: visited) rest

/-- The node dedup loop always produces a sequence satisfying the
invariant, whatever the iterator. -/
theorem dedupLoopV_keysOk (keys : List String) (ns : List Node) :
    ∀ (it : Iterator) (visited : List DKey),
      KeysOkV keys visited (dedupLoopV keys it visited ns) := by
  induction ns with
  | nil => intro it visited; simp [dedupLoopV, KeysOkV]
  | cons n rest ih =>
    intro it visited
    by_cases hd : it.done
    · simp [dedupLoopV, hd, KeysOkV]
    · cases hdk : dedupKeyOf keys n with
      | none => simpa [dedupLoopV, hd, hdk] using ih it visited
      | some k =>
        by_cases hv : k ∈ visited
        · simpa [dedupLoopV, hd, hdk, hv] using ih it visited
        · by_cases ha : (it.next).2
          · simp only [dedupLoopV, hd, Bool.false_eq_true, if_false, hdk, ha, if_true]
            rw [if_neg (by simp [hv])]
            exact ⟨k, hdk, hv, ih _ _⟩
          · simpa [dedupLoopV, hd, hdk, hv, ha] using ih (it.next).1 visited

/-- Replaying the node dedup loop with an unbounded iterator over a
sequence satisfying the invariant returns the sequence unchanged. -/
theorem dedupLoopV_replay (keys : List String) (l : List Node) :
    ∀ (visited : List DKey) (c : Int), 0 ≤ c → KeysOkV keys visited l →
      dedupLoopV keys ⟨c, 0, none⟩ visited l = l := by
  induction l with
  | nil => intro visited c _ _; simp [dedupLoopV]
  | cons n rest ih =>
    intro visited c hc hok
    obtain ⟨k, hk, hcn, hrest⟩ := hok
    have hd : (⟨c, 0, none⟩ : Iterator).done = false := rfl
    have hpos : c + 1 > 0 := by omega
    simp [dedupLoopV, hd, hk, hcn, Iterator.next, hpos,
      ih (k :: visited) (c + 1) (by omega) hrest]

/-- The dedup-output invariant for edges: visited keys are pairwise
distinct and outside the initial visited set. -/
def EKeysOk (key : String) : List EKey → List Edge → Prop
  | _, [] => True
  | visited, e :: rest =>
    edgeKeyOf key e ∉ visited ∧
      EKeysOk key (edgeKeyOf key e :: visited) rest

/-- The edge dedup loop always produces a sequence satisfying the
invariant. -/
theorem dedupLoopE_keysOk (key : String) (es : List Edge) :
    ∀ visited, EKeysOk key visited (dedupLoopE key visited es) := by
  induction es with
  | nil => intro visited; simp [dedupLoopE, EKeysOk]
  | cons e rest ih =>
    intro visited
    by_cases hv : edgeKeyOf key e ∈ visited
    · simpa [dedupLoopE, hv] using ih visited
    · simp only [dedupLoopE]
      rw [if_neg (by simp [hv])]
      exact ⟨hv, ih _⟩

/-- Replaying the edge dedup loop over a sequence satisfying the invariant
returns the sequence unchanged. -/
theorem dedupLoopE_replay (key : String) (l : List Edge) :
    ∀ visited, EKeysOk key visited l → dedupLoopE key visited l = l := by
  induction l with
  | nil => intro visited _; simp [dedupLoopE]
  | cons e rest ih =>
    intro visited hok
    simp [dedupLoopE, hok.1, ih _ hok.2]

/-- C9: `Dedup` is idempotent on node steps with no pagination range set,
for any key arguments (an invalid key argument errors on the first
application and the second propagates the errored step unchanged), and on
edge steps unconditionally. -/
theorem dedup_idempotent (tv : GraphTraversalV) (te : GraphTraversalE)
    (s sE : List GoParam)
    (h : tv.gt.currentStepContext.paginationRange = none) :
    dedupV (dedupV tv s) s = dedupV tv s ∧
    dedupE (dedupE te sE) sE = dedupE te sE := by
  constructor
  · cases he : tv.error with
    | some e => simp [dedupV, he]
    | none =>
      cases hk : extractKeys s with
      | error e => simp [dedupV, he, hk]
      | ok keys =>
        simp only [dedupV, he, hk, Option.isSome_none, Bool.false_eq_true, if_false,
          Option.isSome_some, GraphStepContext.iterator, h]
        exact congrArg (fun l => GraphTraversalV.mk tv.gt l none)
          (dedupLoopV_replay keys _ [] 0 le_rfl (dedupLoopV_keysOk keys _ _ _))
  · cases he : te.error with
    | some e => simp [dedupE, he]
    | none =>
      match sE with
      | [] =>
        simp only [dedupE, he, Option.isSome_none, Bool.false_eq_true, if_false]
        exact congrArg (fun l => GraphTraversalE.mk te.gt l none)
          (dedupLoopE_replay "" _ [] (dedupLoopE_keysOk "" _ _))
      | .int v :: ps => simp [dedupE, he]
      | .str k :: ps =>
        simp only [dedupE, he, Option.isSome_none, Bool.false_eq_true, if_false]
        exact congrArg (fun l => GraphTraversalE.mk te.gt l none)
          (dedupLoopE_replay k _ [] (dedupLoopE_keysOk k _ _))

/-- C9 witness: a node step holding a duplicated node with no range set,
and an edge step holding a duplicated edge. -/
theorem dedup_idempotent_witness :
    dedupV (dedupV ⟨⟨none, none, ⟨none⟩⟩, [⟨"x", "h", []⟩, ⟨"x", "h", []⟩], none⟩ []) [] =
      dedupV ⟨⟨none, none, ⟨none⟩⟩, [⟨"x", "h", []⟩, ⟨"x", "h", []⟩], none⟩ [] ∧
    dedupE (dedupE ⟨emptyGT, [⟨"e", "a", "b", []⟩, ⟨"e", "a", "b", []⟩], none⟩ []) [] =
      dedupE ⟨emptyGT, [⟨"e", "a", "b", []⟩, ⟨"e", "a", "b", []⟩], none⟩ [] :=
  dedup_idempotent _ _ [] [] rfl

/-- C3 counterexample: an errored value step — here produced by `Count` on
an errored node step — answers `Values()` with the one-element sequence
holding the nil value, not the empty sequence. -/
theorem errored_value_step_values_not_empty :
    (countV ⟨emptyGT, [], some "err"⟩).error = some "err" ∧
    (countV ⟨emptyGT, [], some "err"⟩).values = [GoValue.nil] ∧
    (countV ⟨emptyGT, [], some "err"⟩).values ≠ [] := by
  refine ⟨rfl, rfl, by decide⟩

/-- C3 amended: every step applied to a step carrying an error returns a
step carrying that same error without touching the graph (node-, edge- and
graph-valued steps are either returned unchanged or rebuilt empty);
`Values()` on the errored node, edge and path steps so produced is the
empty sequence, while `Values()` on an errored value step is the
one-element sequence holding the nil value. -/
theorem sticky_error_propagation (e : String) (t : GraphTraversal)
    (tv : GraphTraversalV) (te : GraphTraversalE) (tval : GraphTraversalValue)
    (s : List GoParam) (k : String) (p : GoParam) (m em : Metadata)
    (now att d : Int)
    (ht : t.error = some e) (hv : tv.error = some e) (he : te.error = some e)
    (hl : tval.error = some e) :
    (t.vStep s).error = some e ∧ (t.vStep s).values = [] ∧
    t.contextStep now att d = t ∧
    hasV tv s = tv ∧
    hasKeyV tv k = tv ∧
    dedupV tv s = tv ∧
    outStep tv s = tv ∧
    inStep tv s = tv ∧
    bothStep tv s = tv ∧
    outE tv s = ⟨emptyGT, [], some e⟩ ∧
    inE tv s = ⟨emptyGT, [], some e⟩ ∧
    rangeV tv s = ⟨emptyGT, [], some e⟩ ∧
    limitV tv p = ⟨emptyGT, [], some e⟩ ∧
    countV tv = ⟨emptyGT, .nil, some e⟩ ∧
    (countV tv).values = [GoValue.nil] ∧
    sumV tv s = ⟨emptyGT, .nil, some e⟩ ∧
    propertyValues tv k = ⟨emptyGT, .nil, some e⟩ ∧
    propertyKeys tv = ⟨emptyGT, .nil, some e⟩ ∧
    shortestPathTo tv m em = ⟨emptyGT, [], some e⟩ ∧
    (shortestPathTo tv m em).values = [] ∧
    countE te = ⟨emptyGT, .nil, some e⟩ ∧
    rangeE te s = te ∧
    limitE te p = te ∧
    dedupE te s = te ∧
    hasE te s = te ∧
    hasKeyE te k = te ∧
    inVStep te s = ⟨emptyGT, [], some e⟩ ∧
    (inVStep te s).values = [] ∧
    outVStep te s = ⟨emptyGT, [], some e⟩ ∧
    dedupValue tval = tval := by
  refine ⟨?_, ?_, ?_, ?_, ?_, ?_, ?_, ?_, ?_, ?_, ?_, ?_, ?_, ?_, ?_, ?_, ?_, ?_, ?_,
    ?_, ?_, ?_, ?_, ?_, ?_, ?_, ?_, ?_, ?_, ?_⟩ <;>
  simp [GraphTraversal.vStep, GraphTraversalV.values, GraphTraversal.contextStep,
    hasV, hasKeyV, dedupV, outStep, inStep, bothStep, outE, inE, rangeV, limitV,
    countV, GraphTraversalValue.values, sumV, propertyValues, propertyKeys,
    shortestPathTo, GraphTraversalShortestPath.values, countE, rangeE, limitE,
    dedupE, hasE, hasKeyE, inVStep, GraphTraversalE.values, outVStep, dedupValue,
    ht, hv, he, hl]

/-- C3 witness: the propagation applied to concrete errored steps. -/
theorem sticky_error_propagation_witness :
    ((⟨none, some "boom", ⟨none⟩⟩ : GraphTraversal).vStep []).error = some "boom" :=
  (sticky_error_propagation "boom" ⟨none, some "boom", ⟨none⟩⟩
    ⟨emptyGT, [], some "boom"⟩ ⟨emptyGT, [], some "boom"⟩ ⟨emptyGT, .nil, some "boom"⟩
    [] "" (.int 0) [] [] 0 0 0 rfl rfl rfl rfl).1

end Skydive
